import Mathlib

set_option maxRecDepth 8000

/-!
Verification of the FlowBox pattern-rule engine
(`complete_validation_runner.py` and `auto_fix_critical_issues.py`).

File content is modelled as a list of characters (`Str`); a Python string
is its character sequence.  Regular-expression search with `re.IGNORECASE`
is embedded as an executable backtracking matcher over the lower-cased
line, and `re.findall` / `re.sub` are embedded as one left-to-right
non-overlapping scan (`reSub`) that returns the substituted text together
with the number of matches.  All definitions are executable.
-/

/-- Python `str` modelled as its sequence of characters. -/
abbrev Str := List Char

/-- Convert a Lean string literal to the character-list model. -/
def str (s : String) : Str := s.toList

/-- The characters Python `str.strip()` and `\s` treat as whitespace (ASCII). -/
def wsC (c : Char) : Bool :=
  c = ' ' || c = '\t' || c = '\n' || c = '\r' || c = '\x0b' || c = '\x0c'

/-- Python regex `\w` (ASCII part): letters, digits and underscore. -/
def wordC (c : Char) : Bool := c.isAlphanum || c = '_'

/-- Lower-case a string; embeds the effect of matching with `re.IGNORECASE`
against patterns whose letters are lower-cased. -/
def lower (s : Str) : Str := s.map Char.toLower

/-- Python `str.strip()`: drop whitespace from both ends. -/
def strip (s : Str) : Str :=
  ((s.dropWhile wsC).reverse.dropWhile wsC).reverse

/-- Python `needle in hay` (substring containment test). -/
def containsSub (needle : Str) : Str → Bool
  | [] => needle.isEmpty
  | c :: cs => needle.isPrefixOf (c :: cs) || containsSub needle cs

theorem containsSub_iff (needle hay : Str) :
    containsSub needle hay = true ↔ needle <:+: hay := by
  induction hay with
  | nil => simp [containsSub, List.isEmpty_iff]
  | cons c cs ih =>
    simp only [containsSub, Bool.or_eq_true, ih, List.infix_cons_iff,
      List.isPrefixOf_iff_prefix]

/-- Python `content.split('\n')`. -/
def splitLines : Str → List Str
  | [] => [[]]
  | c :: cs =>
    if c = '\n' then [] :: splitLines cs
    else
      match splitLines cs with
      | [] => [[c]]
      | l :: ls => (c :: l) :: ls

/-- Python `'\n'.join(lines)`. -/
def joinLines : List Str → Str
  | [] => []
  | [l] => l
  | l :: l2 :: ls => l ++ '\n' :: joinLines (l2 :: ls)

theorem splitLines_ne_nil (s : Str) : splitLines s ≠ [] := by
  cases s with
  | nil => simp [splitLines]
  | cons c cs =>
    simp only [splitLines]
    split
    · simp
    · split
      · simp
      · simp

theorem joinLines_splitLines (s : Str) : joinLines (splitLines s) = s := by
  induction s with
  | nil => simp [splitLines, joinLines]
  | cons c cs ih =>
    simp only [splitLines]
    split
    · rename_i hc
      subst hc
      cases h : splitLines cs with
      | nil => exact absurd h (splitLines_ne_nil cs)
      | cons l ls =>
        rw [h] at ih
        simp [joinLines, ih]
    · cases h : splitLines cs with
      | nil => exact absurd h (splitLines_ne_nil cs)
      | cons l ls =>
        rw [h] at ih
        cases ls with
        | nil => simp [joinLines] at ih ⊢; exact ih
        | cons l2 ls2 => simp [joinLines] at ih ⊢; rw [ih]

theorem no_newline_of_mem_splitLines {s : Str} {l : Str}
    (hl : l ∈ splitLines s) : '\n' ∉ l := by
  induction s generalizing l with
  | nil => simp [splitLines] at hl; simp [hl]
  | cons c cs ih =>
    simp only [splitLines] at hl
    split at hl
    · rcases List.mem_cons.mp hl with rfl | hl2
      · simp
      · exact ih hl2
    · rename_i hc
      cases h : splitLines cs with
      | nil => exact absurd h (splitLines_ne_nil cs)
      | cons t ts =>
        rw [h] at hl
        rcases List.mem_cons.mp hl with rfl | hl2
        · intro hm
          rcases List.mem_cons.mp hm with h1 | hm2
          · exact hc h1.symm
          · exact ih (h ▸ List.mem_cons_self t ts) hm2
        · exact ih (h ▸ List.mem_cons_of_mem t hl2)

/-- A prefix is in particular an infix. -/
theorem infix_of_take {a b : Str} (h : a <+: b) : a <:+: b := by
  rcases h with ⟨t, rfl⟩
  exact ⟨[], t, rfl⟩

/-- A suffix is in particular an infix. -/
theorem infix_of_drop {a b : Str} (h : a <:+ b) : a <:+: b := by
  rcases h with ⟨t, rfl⟩
  exact ⟨t, [], by simp⟩

/-- Any line of a line list is an infix of their '\n'-join. -/
theorem infix_joinLines_of_mem {l : Str} {L : List Str} (h : l ∈ L) :
    l <:+: joinLines L := by
  induction L with
  | nil => cases h
  | cons x xs ih =>
    rcases List.mem_cons.mp h with rfl | h2
    · cases xs with
      | nil => exact List.infix_rfl
      | cons y ys => exact infix_of_take ⟨'\n' :: joinLines (y :: ys), rfl⟩
    · cases xs with
      | nil => cases h2
      | cons y ys =>
        refine List.IsInfix.trans (ih h2) (infix_of_drop ?_)
        exact ⟨x ++ ['\n'], by simp [joinLines]⟩

/-- If `s` avoids a character `b`, a prefix of `X ++ b :: Y` is a prefix of `X`. -/
theorem prefix_drop_sep {s X Y : Str} {b : Char} (hb : b ∉ s)
    (h : s <+: X ++ b :: Y) : s <+: X := by
  induction X generalizing s with
  | nil =>
    cases s with
    | nil => exact List.nil_prefix
    | cons a as =>
      rcases List.cons_prefix_cons.mp h with ⟨rfl, _⟩
      simp at hb
  | cons x xs ih =>
    cases s with
    | nil => exact List.nil_prefix
    | cons a as =>
      rcases List.cons_prefix_cons.mp h with ⟨rfl, h2⟩
      have : as <+: xs := ih (fun hm => hb (List.mem_cons_of_mem _ hm)) h2
      exact List.cons_prefix_cons.mpr ⟨rfl, this⟩

/-- If `s` avoids `b`, an infix of `A ++ b :: B` lies inside `A` or inside `B`. -/
theorem infix_drop_sep {s A B : Str} {b : Char} (hb : b ∉ s)
    (h : s <:+: A ++ b :: B) : s <:+: A ∨ s <:+: B := by
  induction A generalizing s with
  | nil =>
    rcases List.infix_cons_iff.mp h with hp | hi
    · cases s with
      | nil => exact Or.inl List.infix_rfl
      | cons a as =>
        rcases List.cons_prefix_cons.mp hp with ⟨rfl, _⟩
        simp at hb
    · exact Or.inr hi
  | cons x xs ih =>
    rcases List.infix_cons_iff.mp h with hp | hi
    · exact Or.inl (infix_of_take (prefix_drop_sep hb hp))
    · rcases ih hb hi with h1 | h2
      · exact Or.inl (List.IsInfix.trans h1 (infix_of_drop ⟨[x], rfl⟩))
      · exact Or.inr h2

/-- A newline-free infix of a '\n'-join is an infix of one of the lines. -/
theorem infix_line_of_infix_joinLines {s : Str} {L : List Str}
    (hL : L ≠ []) (hs : '\n' ∉ s) (h : s <:+: joinLines L) :
    ∃ l ∈ L, s <:+: l := by
  induction L with
  | nil => exact absurd rfl hL
  | cons x xs ih =>
    cases xs with
    | nil => exact ⟨x, List.mem_cons_self x [], h⟩
    | cons y ys =>
      have hjoin : joinLines (x :: y :: ys) = x ++ '\n' :: joinLines (y :: ys) := rfl
      rw [hjoin] at h
      rcases infix_drop_sep hs h with h1 | h2
      · exact ⟨x, List.mem_cons_self x _, h1⟩
      · rcases ih (by simp) h2 with ⟨l, hl, hsl⟩
        exact ⟨l, List.mem_cons_of_mem x hl, hsl⟩

/-! ### Regex search engine (scanner side)

`SM` is a matcher in continuation-passing style: `m s k` holds when some
prefix of `s` is accepted by the pattern and the continuation `k` accepts
the remainder.  Greedy repetition tries the longest run first, then
backtracks, exactly as Python's `re` does on these patterns.  `smSearch`
embeds `re.search` (a match may start at any position). -/

abbrev SM := Str → (Str → Bool) → Bool

def smLit (pat : Str) : SM := fun s k =>
  pat.isPrefixOf s && k (s.drop pat.length)

def smChar (p : Char → Bool) : SM := fun s k =>
  match s with
  | [] => false
  | c :: cs => p c && k cs

def smSeq (a b : SM) : SM := fun s k => a s (fun s2 => b s2 k)

def smAlt (a b : SM) : SM := fun s k => a s k || b s k

def smOpt (a : SM) : SM := fun s k => a s k || k s

/-- Greedy `p*` with backtracking: longest repetition first. -/
def smStar (p : Char → Bool) : Str → (Str → Bool) → Bool
  | [], k => k []
  | c :: cs, k => (p c && smStar p cs k) || k (c :: cs)

/-- Greedy `p+`. -/
def smPlus (p : Char → Bool) : SM := smSeq (smChar p) (fun s k => smStar p s k)

/-- `re.search(pattern, s) is not None`: try the pattern at every start. -/
def smSearch (m : SM) : Str → Bool
  | [] => m [] (fun _ => true)
  | c :: cs => m (c :: cs) (fun _ => true) || smSearch m cs

/-! ### The 17 detection patterns of `validation_patterns`

Each embeds `re.search(pattern, line, re.IGNORECASE) is not None`; the
line is lower-cased and the pattern's letters written in lower case. -/

/-- `FindObjectOfType[<(]` -/
def reFindObjectOfType (line : Str) : Bool :=
  let l := lower line
  containsSub (str "findobjectoftype<") l || containsSub (str "findobjectoftype(") l

/-- `(using System\.Linq|\.Where\(|\.Select\(|\.FirstOrDefault\()` -/
def reLinqUsage (line : Str) : Bool :=
  let l := lower line
  containsSub (str "using system.linq") l || containsSub (str ".where(") l ||
    containsSub (str ".select(") l || containsSub (str ".firstordefault(") l

/-- `async\s+void\s+\w+` -/
def reAsyncVoid (line : Str) : Bool :=
  smSearch (smSeq (smLit (str "async")) (smSeq (smPlus wsC)
    (smSeq (smLit (str "void")) (smSeq (smPlus wsC) (smChar wordC))))) (lower line)

/-- `"\s*\+\s*\w+|\w+\s*\+\s*"` -/
def reStringConcat (line : Str) : Bool :=
  smSearch (smAlt
    (smSeq (smChar (· = '"')) (smSeq smStar' (smSeq (smChar (· = '+'))
      (smSeq smStar' (smChar wordC)))))
    (smSeq (smChar wordC) (smSeq smStar' (smSeq (smChar (· = '+'))
      (smSeq smStar' (smChar (· = '"'))))))) (lower line)
where smStar' : SM := fun s k => smStar wsC s k

/-- `StartCoroutine\(` -/
def reStartCoroutine (line : Str) : Bool :=
  containsSub (str "startcoroutine(") (lower line)

/-- `Input\.(GetButton|GetKey|GetAxis)` -/
def reLegacyInput (line : Str) : Bool :=
  let l := lower line
  containsSub (str "input.getbutton") l || containsSub (str "input.getkey") l ||
    containsSub (str "input.getaxis") l

/-- `Resources\.Load[<(]` -/
def reResourcesLoad (line : Str) : Bool :=
  let l := lower line
  containsSub (str "resources.load<") l || containsSub (str "resources.load(") l

/-- `Instantiate\(` -/
def reInstantiate (line : Str) : Bool :=
  containsSub (str "instantiate(") (lower line)

/-- `GetComponent[<(].*\)` -/
def reGetComponent (line : Str) : Bool :=
  smSearch (smSeq (smLit (str "getcomponent"))
    (smSeq (smChar (fun c => c = '<' || c = '('))
      (smSeq (fun s k => smStar (fun c => c ≠ '\n') s k) (smChar (· = ')'))))) (lower line)

/-- `Camera\.main` -/
def reCameraMain (line : Str) : Bool :=
  containsSub (str "camera.main") (lower line)

/-- `=\s*[0-9]+\.?[0-9]*[f]?\s*[;}]` -/
def reMagicNumbers (line : Str) : Bool :=
  smSearch (smSeq (smChar (· = '='))
    (smSeq (fun s k => smStar wsC s k)
    (smSeq (smPlus Char.isDigit)
    (smSeq (smOpt (smChar (· = '.')))
    (smSeq (fun s k => smStar Char.isDigit s k)
    (smSeq (smOpt (smChar (· = 'f')))
    (smSeq (fun s k => smStar wsC s k)
      (smChar (fun c => c = ';' || c = '\x7d'))))))))) (lower line)

/-- `catch[^{]*{\s*}` -/
def reEmptyCatch (line : Str) : Bool :=
  smSearch (smSeq (smLit (str "catch"))
    (smSeq (fun s k => smStar (fun c => c ≠ '\x7b') s k)
    (smSeq (smChar (· = '\x7b'))
    (smSeq (fun s k => smStar wsC s k) (smChar (· = '\x7d')))))) (lower line)

/-- `(TODO|FIXME|HACK|BUG):` -/
def reTodoFixme (line : Str) : Bool :=
  let l := lower line
  containsSub (str "todo:") l || containsSub (str "fixme:") l ||
    containsSub (str "hack:") l || containsSub (str "bug:") l

/-- `\.Add\(` -/
def reListAdd (line : Str) : Bool :=
  containsSub (str ".add(") (lower line)

/-- `new\s+\w+\(` -/
def reNewInUpdate (line : Str) : Bool :=
  smSearch (smSeq (smLit (str "new")) (smSeq (smPlus wsC)
    (smSeq (smChar wordC) (smSeq (fun s k => smStar wordC s k)
      (smChar (· = '(')))))) (lower line)

/-- `Invoke\(` -/
def reInvoke (line : Str) : Bool :=
  containsSub (str "invoke(") (lower line)

/-- `\w+\.\w+\(` -/
def reMissingNullCheck (line : Str) : Bool :=
  smSearch (smSeq (smChar wordC) (smSeq (fun s k => smStar wordC s k)
    (smSeq (smChar (· = '.')) (smSeq (smChar wordC)
      (smSeq (fun s k => smStar wordC s k) (smChar (· = '('))))))) (lower line)

/-! ### Scanner data model (`complete_validation_runner.py`) -/

/-- One entry of `ComprehensiveValidator.validation_patterns`.  The field
`matchesLine` embeds `re.search(pattern, line, re.IGNORECASE) is not None`. -/
structure VRule where
  name : String
  matchesLine : Str → Bool
  severity : String
  category : String
  description : String
  solution : String
  can_auto_fix : Bool

/-- The `Issue` dataclass. -/
structure Issue where
  severity : String
  category : String
  file : String
  line : Nat
  description : String
  solution : String
  can_auto_fix : Bool
  code_snippet : Str
deriving DecidableEq

/-- The 17 entries of `validation_patterns`, in source (dict-insertion) order. -/
def validation_patterns : List VRule :=
  [ ⟨"findobjectoftype", reFindObjectOfType, "Critical", "Performance",
      "FindObjectOfType causes VR performance issues (50-150ms spikes)",
      "Replace with CachedReferenceManager.Get<T>()", true⟩,
    ⟨"linq_usage", reLinqUsage, "Warning", "Performance",
      "LINQ causes GC allocations in VR (memory pressure)",
      "Replace with for loops or pre-allocated collections", false⟩,
    ⟨"async_void", reAsyncVoid, "Critical", "AsyncPatterns",
      "async void can cause unhandled exceptions and memory leaks",
      "Change to async Task", true⟩,
    ⟨"string_concatenation", reStringConcat, "Warning", "Performance",
      "String concatenation in loops causes GC pressure",
      "Use StringBuilder or string interpolation", false⟩,
    ⟨"legacy_coroutines", reStartCoroutine, "Warning", "Unity6Compliance",
      "Legacy coroutines, consider async/await for Unity 6",
      "Convert to async Task methods", false⟩,
    ⟨"legacy_input", reLegacyInput, "Warning", "Unity6Compliance",
      "Legacy Input system, Unity 6 uses new Input System",
      "Migrate to Unity Input System", false⟩,
    ⟨"resources_load", reResourcesLoad, "Warning", "Unity6Compliance",
      "Resources.Load is legacy, Unity 6 prefers Addressables",
      "Convert to Addressable Asset System", false⟩,
    ⟨"instantiate_without_pool", reInstantiate, "Warning", "VROptimization",
      "Direct Instantiate causes GC pressure in VR",
      "Use object pooling", false⟩,
    ⟨"getcomponent_in_update", reGetComponent, "Warning", "VROptimization",
      "GetComponent calls should be cached for VR performance",
      "Cache component references in Start/Awake", false⟩,
    ⟨"camera_main", reCameraMain, "Warning", "VROptimization",
      "Camera.main is slow, cache VR camera reference",
      "Cache camera reference at startup", false⟩,
    ⟨"magic_numbers", reMagicNumbers, "Info", "CodeQuality",
      "Magic numbers reduce code maintainability",
      "Replace with named constants", false⟩,
    ⟨"empty_catch", reEmptyCatch, "Warning", "CodeQuality",
      "Empty catch blocks hide errors",
      "Add proper error handling or logging", false⟩,
    ⟨"todo_fixme", reTodoFixme, "Info", "CodeQuality",
      "Unresolved development notes",
      "Address or document the issue", false⟩,
    ⟨"list_add_in_update", reListAdd, "Warning", "MemoryManagement",
      "Collection modifications in Update can cause GC",
      "Pre-allocate collections or use object pooling", false⟩,
    ⟨"new_in_update", reNewInUpdate, "Warning", "MemoryManagement",
      "Object allocation in Update causes GC pressure",
      "Move allocations outside of Update or use pooling", false⟩,
    ⟨"invoke_without_check", reInvoke, "Info", "Threading",
      "Invoke without null checking can cause issues",
      "Add null checks before Invoke", false⟩,
    ⟨"missing_null_check", reMissingNullCheck, "Info", "ErrorHandling",
      "Potential null reference access",
      "Add null checks where appropriate", false⟩ ]

/-- `ComprehensiveValidator.is_false_positive`. -/
def is_false_positive (line : Str) (pattern_name : String) : Bool :=
  if (str "//").isPrefixOf (strip line) || (str "*").isPrefixOf (strip line) then
    true
  else if pattern_name == "findobjectoftype" &&
      containsSub (str "CachedReferenceManager") line then
    true
  else if pattern_name == "async_void" &&
      containsSub (str "async void Start(") line then
    true
  else
    false

/-- The `Issue` built for a (rule, line) pair, as in `analyze_file`. -/
def mkIssue (file : String) (line_num : Nat) (line : Str) (r : VRule) : Issue :=
  { severity := r.severity, category := r.category, file := file,
    line := line_num, description := r.description, solution := r.solution,
    can_auto_fix := r.can_auto_fix, code_snippet := strip line }

/-- Inner loop of `analyze_file`: all issues one line contributes, testing
every rule in table order and skipping false positives. -/
def lineIssues (rules : List VRule) (file : String) (line_num : Nat)
    (line : Str) : List Issue :=
  rules.filterMap (fun r =>
    if r.matchesLine line && !(is_false_positive line r.name) then
      some (mkIssue file line_num line r)
    else
      none)

/-- `ComprehensiveValidator.analyze_file`, parameterised by the rule table
that the source stores in `self.validation_patterns`: split the content
into lines, enumerate them 1-based, and test every rule on every line. -/
def analyze_file_with (rules : List VRule) (file : String) (content : Str) :
    List Issue :=
  (List.enumFrom 1 (splitLines content)).foldr
    (fun p acc => lineIssues rules file p.1 p.2 ++ acc) []

/-- `analyze_file` with the source's rule table. -/
def analyze_file (file : String) (content : Str) : List Issue :=
  analyze_file_with validation_patterns file content

/-! ### Report aggregation (`generate_report`) -/

/-- Number of issues with the given severity
(`len([i for i in all_issues if i.severity == sev])`). -/
def countSeverity (sev : String) (issues : List Issue) : Nat :=
  (issues.filter (fun i => i.severity == sev)).length

/-- The `ValidationReport` dataclass.  The `summary` string is report
formatting, an external collaborator per the spec's scope, and is omitted. -/
structure ValidationReport where
  total_issues : Nat
  critical_issues : Nat
  warning_issues : Nat
  info_issues : Nat
  issues_by_category : List (String × Nat)
  all_issues : List Issue
  validation_time : Nat
  is_deployment_ready : Bool
deriving DecidableEq

/-- `issues_by_category[cat] = issues_by_category.get(cat, 0) + 1` on an
insertion-ordered dict, modelled as an association list. -/
def bumpCategory : List (String × Nat) → String → List (String × Nat)
  | [], c => [(c, 1)]
  | (k, v) :: rest, c =>
    if k == c then (k, v + 1) :: rest else (k, v) :: bumpCategory rest c

def categoryCounts (issues : List Issue) : List (String × Nat) :=
  issues.foldl (fun acc i => bumpCategory acc i.category) []

/-- `ComprehensiveValidator.generate_report`. -/
def generate_report (all_issues : List Issue) (validation_time : Nat) :
    ValidationReport :=
  { total_issues := all_issues.length,
    critical_issues := countSeverity "Critical" all_issues,
    warning_issues := countSeverity "Warning" all_issues,
    info_issues := countSeverity "Info" all_issues,
    issues_by_category := categoryCounts all_issues,
    all_issues := all_issues,
    validation_time := validation_time,
    is_deployment_ready := countSeverity "Critical" all_issues == 0 }

/-! ### The scan runner (`run_comprehensive_validation`)

A file on disk either reads to some content or raises (unreadable /
undecodable).  `analyze_one` embeds the `try`/`except` in `analyze_file`:
a failure yields no issues and one printed error line.  The runner gathers
the per-file task results in submission order and appends the results of
the project-structure and scene tasks (`extra`) last, as the source does. -/

inductive ReadResult where
  | ok (content : Str)
  | err (msg : String)
deriving DecidableEq

structure ScanFile where
  name : String
  read : ReadResult
deriving DecidableEq

/-- The error line printed by `analyze_file`'s `except` branch. -/
def analysisError (name msg : String) : String :=
  "Error analyzing " ++ name ++ ": " ++ msg

/-- One `analyze_file` task: (issues produced, structural errors reported). -/
def analyze_one (f : ScanFile) : List Issue × List String :=
  match f.read with
  | .ok c => (analyze_file f.name c, [])
  | .err m => ([], [analysisError f.name m])

/-- Concatenation of a list of lists. -/
def catLists {α : Type} : List (List α) → List α :=
  fun L => L.foldr (· ++ ·) []

/-- `run_comprehensive_validation`: all per-file tasks in submission order,
then the project-wide tasks (`extra`); returns the report and the error log. -/
def run_comprehensive_validation (files : List ScanFile) (extra : List Issue)
    (t : Nat) : ValidationReport × List String :=
  let results := files.map analyze_one
  (generate_report (catLists (results.map Prod.fst) ++ extra) t,
   catLists (results.map Prod.snd))

/-- Executor-level model of the runner's thread pool: tasks complete in
schedule order (`sched` lists task indices in completion order), each task's
result being attached to its index; `task.result()` is then gathered in
submission order, as in the source's loop over `tasks`. -/
def run_validation_sched (files : List ScanFile) (extra : List Issue)
    (t : Nat) (sched : List Nat) : ValidationReport :=
  let completions := sched.filterMap (fun i => (files[i]?).map (fun f => (i, analyze_one f)))
  let gathered := (List.range files.length).map
    (fun i => ((List.lookup i completions).getD ([], [])).1)
  generate_report (catLists gathered ++ extra) t

/-! ### Fixer engine (`auto_fix_critical_issues.py`)

`re.findall` / `re.sub` over one fix pattern are embedded by a single
left-to-right non-overlapping scan: at each position the pattern is tried;
on a match the replacement is emitted and scanning resumes after the match,
otherwise one character is copied.  `try1 s` returns
`some (replacement, rest)` when the pattern matches at the start of `s`
(every fix pattern consumes at least one character). -/

def subScan (try1 : Str → Option (Str × Str)) : Nat → Str → Str × Nat
  | 0, s => (s, 0)
  | _ + 1, [] => ([], 0)
  | fuel + 1, c :: cs =>
    match try1 (c :: cs) with
    | some (rep, rest) =>
      if rest.length ≤ cs.length then
        let r := subScan try1 fuel rest
        (rep ++ r.1, r.2 + 1)
      else
        let r := subScan try1 fuel cs
        (c :: r.1, r.2)
    | none =>
      let r := subScan try1 fuel cs
      (c :: r.1, r.2)

/-- `(re.sub(p, repl, s), len(re.findall(p, s)))`. -/
def reSub (try1 : Str → Option (Str × Str)) (s : Str) : Str × Nat :=
  subScan try1 s.length s

/-- If the scan found no match, the text is returned unchanged
(the coherence of `re.findall` and `re.sub`). -/
theorem subScan_count_zero (try1 : Str → Option (Str × Str)) :
    ∀ fuel s, (subScan try1 fuel s).2 = 0 → (subScan try1 fuel s).1 = s := by
  intro fuel
  induction fuel with
  | zero => intro s _; rfl
  | succ n ih =>
    intro s h
    cases s with
    | nil => rfl
    | cons c cs =>
      simp only [subScan] at h ⊢
      cases htry : try1 (c :: cs) with
      | none =>
        simp only [htry] at h ⊢
        rw [ih cs h]
      | some pr =>
        simp only [htry] at h ⊢
        split at h
        · simp at h
        · split
          · simp_all
          · rw [ih cs h]

theorem reSub_count_zero (try1 : Str → Option (Str × Str)) (s : Str)
    (h : (reSub try1 s).2 = 0) : (reSub try1 s).1 = s :=
  subScan_count_zero try1 s.length s h

/-- Consume a literal at the start of the string. -/
def dropLit (pat : Str) (s : Str) : Option Str :=
  if pat.isPrefixOf s then some (s.drop pat.length) else none

/-- Python `\s*` (these fix patterns never need to backtrack into it). -/
def dropWs (s : Str) : Str := s.dropWhile wsC

/-- Python `\s+` followed by a non-whitespace token. -/
def reqWs1 (s : Str) : Option Str :=
  match s with
  | [] => none
  | c :: cs => if wsC c then some (cs.dropWhile wsC) else none

/-- Fix pattern `FindObjectOfType<([^>]+)>\(\)` with replacement
`CachedReferenceManager.Get<\1>()` (case-sensitive, as in the source). -/
def tryFindObjectOfType (s : Str) : Option (Str × Str) :=
  match dropLit (str "FindObjectOfType<") s with
  | none => none
  | some s1 =>
    let cap := s1.takeWhile (fun c => c ≠ '>')
    if cap.isEmpty then none
    else
      match dropLit (str ">()") (s1.drop cap.length) with
      | none => none
      | some rest =>
        some (str "CachedReferenceManager.Get<" ++ cap ++ str ">()", rest)

/-- The optional group `(private|public|protected|internal)?`
(alternatives tried left to right; empty when none matches). -/
def tryModifier (s : Str) : Str × Str :=
  match dropLit (str "private") s with
  | some r => (str "private", r)
  | none =>
    match dropLit (str "public") s with
    | some r => (str "public", r)
    | none =>
      match dropLit (str "protected") s with
      | some r => (str "protected", r)
      | none =>
        match dropLit (str "internal") s with
        | some r => (str "internal", r)
        | none => ([], s)

/-- Fix pattern
`(private|public|protected|internal)?\s*(async\s+void\s+)(\w+)\s*\(`
with replacement `\1 async Task \3(` (an unmatched group substitutes ""). -/
def tryAsyncVoidMethods (s : Str) : Option (Str × Str) :=
  let m := tryModifier s
  match dropLit (str "async") (dropWs m.2) with
  | none => none
  | some s3 =>
    match reqWs1 s3 with
    | none => none
    | some s4 =>
      match dropLit (str "void") s4 with
      | none => none
      | some s5 =>
        match reqWs1 s5 with
        | none => none
        | some s6 =>
          let cap := s6.takeWhile wordC
          if cap.isEmpty then none
          else
            match dropWs (s6.drop cap.length) with
            | '(' :: rest => some (m.1 ++ str " async Task " ++ cap ++ str "(", rest)
            | _ => none

/-- Fix pattern `async\s+void\s+(\w+)\s*\(` with replacement `async Task \1(`. -/
def tryAsyncVoidSimple (s : Str) : Option (Str × Str) :=
  match dropLit (str "async") s with
  | none => none
  | some s1 =>
    match reqWs1 s1 with
    | none => none
    | some s2 =>
      match dropLit (str "void") s2 with
      | none => none
      | some s3 =>
        match reqWs1 s3 with
        | none => none
        | some s4 =>
          let cap := s4.takeWhile wordC
          if cap.isEmpty then none
          else
            match dropWs (s4.drop cap.length) with
            | '(' :: rest => some (str "async Task " ++ cap ++ str "(", rest)
            | _ => none

/-- Fix pattern `Resources\.Load<([^>]+)>\("([^"]+)"\)` with replacement
`// TODO: Convert to Addressables - Resources.Load<\1>("\2")`. -/
def tryResourcesLoad (s : Str) : Option (Str × Str) :=
  match dropLit (str "Resources.Load<") s with
  | none => none
  | some s1 =>
    let cap1 := s1.takeWhile (fun c => c ≠ '>')
    if cap1.isEmpty then none
    else
      match dropLit (str ">(\"") (s1.drop cap1.length) with
      | none => none
      | some s2 =>
        let cap2 := s2.takeWhile (fun c => c ≠ '"')
        if cap2.isEmpty then none
        else
          match dropLit (str "\")") (s2.drop cap2.length) with
          | none => none
          | some rest =>
            some (str "// TODO: Convert to Addressables - Resources.Load<" ++
              cap1 ++ str ">(\"" ++ cap2 ++ str "\")", rest)

/-- The group `("[^"]*")`: a double-quoted (possibly empty) run. -/
def tryQuoted (s : Str) : Option (Str × Str) :=
  match s with
  | '"' :: s1 =>
    let inner := s1.takeWhile (fun c => c ≠ '"')
    match s1.drop inner.length with
    | '"' :: rest => some ('"' :: (inner ++ ['"']), rest)
    | _ => none
  | _ => none

/-- Fix pattern `("[^"]*")\s*\+\s*(\w+)\s*\+\s*("[^"]*")` with replacement
`$"\1{\2}\3"`. -/
def tryStringConcat (s : Str) : Option (Str × Str) :=
  match tryQuoted s with
  | none => none
  | some (g1, s1) =>
    match dropWs s1 with
    | '+' :: s2 =>
      let s3 := dropWs s2
      let cap := s3.takeWhile wordC
      if cap.isEmpty then none
      else
        match dropWs (s3.drop cap.length) with
        | '+' :: s4 =>
          match tryQuoted (dropWs s4) with
          | none => none
          | some (g3, rest) =>
            some ('$' :: '"' :: (g1 ++ '\x7b' :: (cap ++ '\x7d' :: (g3 ++ ['"']))), rest)
        | _ => none
    | _ => none

/-! ### The Fixer (`AutoFixer`) -/

/-- One entry appended to `self.fixes_applied`. -/
structure FixRecord where
  file : String
  fix_type : String
  count : Nat
deriving DecidableEq

/-- One entry of `AutoFixer.fix_patterns`: `countMatches` embeds
`len(re.findall(pattern, content))` and `apply` embeds
`re.sub(pattern, replacement, content)` (both case-sensitive). -/
structure FixRule where
  name : String
  countMatches : Str → Nat
  apply : Str → Str

def mkFixRule (name : String) (try1 : Str → Option (Str × Str)) : FixRule :=
  { name := name,
    countMatches := fun s => (reSub try1 s).2,
    apply := fun s => (reSub try1 s).1 }

/-- The five entries of `fix_patterns`, in source (dict-insertion) order. -/
def fix_patterns : List FixRule :=
  [ mkFixRule "findobjectoftype" tryFindObjectOfType,
    mkFixRule "async_void_methods" tryAsyncVoidMethods,
    mkFixRule "async_void_simple" tryAsyncVoidSimple,
    mkFixRule "legacy_resources_load" tryResourcesLoad,
    mkFixRule "string_concatenation_simple" tryStringConcat ]

/-- `AutoFixer.skip_files`: the protected-file set. -/
def skip_files : List String :=
  ["EnhancingPromptSystem.cs", "CachedReferenceManager.cs", "BaselineProfiler.cs"]

/-- The loop body of `fix_file`: apply each fix pattern in table order to the
progressively-updated content; a rule records a fix (with the match count
taken on the content it saw) only when `re.sub` changed the content.
Returns (final content, fix records, total fix count). -/
def fix_file_loop (file : String) : List FixRule → Str → Str × List FixRecord × Nat
  | [], c => (c, [], 0)
  | r :: rs, c =>
    let m := r.countMatches c
    if m ≠ 0 then
      let c2 := r.apply c
      if c2 ≠ c then
        let rest := fix_file_loop file rs c2
        (rest.1, ⟨file, r.name, m⟩ :: rest.2.1, m + rest.2.2)
      else
        fix_file_loop file rs c
    else
      fix_file_loop file rs c

/-- Result of `AutoFixer.fix_file` on one file; `writes` is the sequence
of disk writes performed for that file (the source writes back once, at
the end, iff the content changed). -/
structure FixFileResult where
  content : Str
  records : List FixRecord
  fixes : Nat
  writes : List Str

/-- `AutoFixer.fix_file`. -/
def fix_file (file : String) (rules : List FixRule) (orig : Str) : FixFileResult :=
  let r := fix_file_loop file rules orig
  { content := r.1, records := r.2.1, fixes := r.2.2,
    writes := if r.1 ≠ orig then [r.1] else [] }

/-- Refinement-side definition, following the spec's words (§4.5): fix rules
are applied in the RuleSet's declared order to progressively-updated
in-memory content. -/
def fix_spec_content : List FixRule → Str → Str
  | [], c => c
  | r :: rs, c => fix_spec_content rs (r.apply c)

/-- Refinement-side definition, following the spec's words (§4.5): one
FixRecord per rule that produced at least one replacement, with `count`
equal to the number of matches found at the moment the rule was applied. -/
def fix_spec_records (file : String) : List FixRule → Str → List FixRecord
  | [], _ => []
  | r :: rs, c =>
    if r.apply c ≠ c then
      ⟨file, r.name, r.countMatches c⟩ :: fix_spec_records file rs (r.apply c)
    else
      fix_spec_records file rs (r.apply c)

/-- A file handed to the Fixer. -/
structure SrcFile where
  name : String
  content : Str

/-- The per-file part of `AutoFixer.auto_fix_all_issues`: files whose name is
in `skip_files` are skipped before any rule is attempted; all fix records
and all (file, content) write events are accumulated. -/
def auto_fix_all (rules : List FixRule) :
    List SrcFile → List FixRecord × List (String × Str)
  | [] => ([], [])
  | f :: fs =>
    let rest := auto_fix_all rules fs
    if f.name ∈ skip_files then rest
    else
      let res := fix_file f.name rules f.content
      (res.records ++ rest.1, res.writes.map (fun c => (f.name, c)) ++ rest.2)

/-! ### The UsingInjector (`add_missing_using_statements`) -/

/-- `line.strip().startswith('using ') and not line.strip().startswith('using static')`. -/
def isUsingLine (l : Str) : Bool :=
  (str "using ").isPrefixOf (strip l) && !((str "using static").isPrefixOf (strip l))

/-- The source's loop: `insert_index` ends one past the last using-line. -/
def insertIndex (lines : List Str) : Nat :=
  (List.enumFrom 0 lines).foldl (fun acc p => if isUsingLine p.2 then p.1 + 1 else acc) 0

/-- The per-file core of `AutoFixer.add_missing_using_statements`: the
declarations not yet occurring in the content (substring test) are inserted,
in order, after the last existing using-line; nothing happens when none is
missing. -/
def inject_usings (c : Str) (stmts : List Str) : Str :=
  let missing := stmts.filter (fun s => !(containsSub s c))
  if missing.isEmpty then c
  else
    let lines := splitLines c
    let idx := insertIndex lines
    joinLines (lines.take idx ++ missing ++ lines.drop idx)

/-! ### Lemmas about the scanner -/

theorem mem_enumFrom_fst_ge {α : Type} {p : Nat × α} :
    ∀ {n : Nat} {l : List α}, p ∈ List.enumFrom n l → n ≤ p.1 := by
  intro n l
  induction l generalizing n with
  | nil => intro h; cases h
  | cons x xs ih =>
    intro h
    rcases List.mem_cons.mp h with rfl | h2
    · exact Nat.le_refl n
    · exact Nat.le_of_succ_le (ih h2)

theorem mem_enumFrom_snd {α : Type} {p : Nat × α} :
    ∀ {n : Nat} {l : List α}, p ∈ List.enumFrom n l → p.2 ∈ l := by
  intro n l
  induction l generalizing n with
  | nil => intro h; cases h
  | cons x xs ih =>
    intro h
    rcases List.mem_cons.mp h with rfl | h2
    · exact List.mem_cons_self x xs
    · exact List.mem_cons_of_mem x (ih h2)

theorem enumFrom_pairwise_fst_ne {α : Type} :
    ∀ (n : Nat) (l : List α),
      (List.enumFrom n l).Pairwise (fun a b => a.1 ≠ b.1) := by
  intro n l
  induction l generalizing n with
  | nil => exact List.Pairwise.nil
  | cons x xs ih =>
    refine List.Pairwise.cons ?_ (ih (n + 1))
    intro q hq
    have := mem_enumFrom_fst_ge hq
    omega

/-- Membership in a fold that appends the image of each element. -/
theorem mem_foldr_append {α β : Type} (f : β → List α) (L : List β) (i : α) :
    i ∈ L.foldr (fun p acc => f p ++ acc) [] ↔ ∃ p ∈ L, i ∈ f p := by
  induction L with
  | nil => simp
  | cons x xs ih => simp [ih]

theorem count_foldr_append {α β : Type} [DecidableEq α] (f : β → List α)
    (L : List β) (a : α) :
    (L.foldr (fun p acc => f p ++ acc) []).count a =
      (L.map (fun p => (f p).count a)).sum := by
  induction L with
  | nil => simp
  | cons x xs ih => simp [List.count_append, ih]

theorem foldr_append_eq_nil {α β : Type} (f : β → List α) (L : List β) :
    L.foldr (fun p acc => f p ++ acc) [] = [] ↔ ∀ p ∈ L, f p = [] := by
  induction L with
  | nil => simp
  | cons x xs ih => simp [ih]

/-- Full characterization of the issues one line contributes. -/
theorem mem_lineIssues {rules : List VRule} {file : String} {n : Nat}
    {line : Str} {i : Issue} :
    i ∈ lineIssues rules file n line ↔
      ∃ r ∈ rules, r.matchesLine line = true ∧
        is_false_positive line r.name = false ∧ i = mkIssue file n line r := by
  simp only [lineIssues, List.mem_filterMap]
  constructor
  · rintro ⟨r, hr, hf⟩
    by_cases hcond : (r.matchesLine line && !(is_false_positive line r.name)) = true
    · rw [if_pos hcond] at hf
      simp only [Bool.and_eq_true, Bool.not_eq_true'] at hcond
      exact ⟨r, hr, hcond.1, hcond.2, (Option.some_inj.mp hf).symm⟩
    · rw [if_neg hcond] at hf
      cases hf
  · rintro ⟨r, hr, hm, hfp, rfl⟩
    refine ⟨r, hr, ?_⟩
    rw [if_pos (by simp [hm, hfp])]

theorem line_of_mem_lineIssues {rules : List VRule} {file : String} {n : Nat}
    {line : Str} {i : Issue} (h : i ∈ lineIssues rules file n line) :
    i.line = n := by
  rcases mem_lineIssues.mp h with ⟨r, _, _, _, rfl⟩
  rfl

theorem description_of_mem_lineIssues {rules : List VRule} {file : String}
    {n : Nat} {line : Str} {i : Issue} (h : i ∈ lineIssues rules file n line) :
    i.description ∈ rules.map VRule.description := by
  rcases mem_lineIssues.mp h with ⟨r, hr, _, _, rfl⟩
  exact List.mem_map.mpr ⟨r, hr, rfl⟩

/-- Under distinct rule descriptions, a matching surviving (rule, line) pair
is reported exactly once on its line. -/
theorem count_lineIssues {rules : List VRule} {file : String} {n : Nat}
    {line : Str} {r : VRule}
    (hnd : (rules.map VRule.description).Nodup) (hr : r ∈ rules)
    (hm : r.matchesLine line = true)
    (hfp : is_false_positive line r.name = false) :
    (lineIssues rules file n line).count (mkIssue file n line r) = 1 := by
  induction rules with
  | nil => cases hr
  | cons r0 rs ih =>
    rw [List.map_cons, List.nodup_cons] at hnd
    have hsplit : lineIssues (r0 :: rs) file n line =
        (if r0.matchesLine line && !(is_false_positive line r0.name) then
          [mkIssue file n line r0] else []) ++ lineIssues rs file n line := by
      by_cases hcond : (r0.matchesLine line && !(is_false_positive line r0.name)) = true
      · simp only [lineIssues, List.filterMap_cons, if_pos hcond]
        simp
      · simp only [lineIssues, List.filterMap_cons, if_neg hcond]
        simp
    rcases List.mem_cons.mp hr with rfl | hr2
    · rw [hsplit, if_pos (by simp [hm, hfp])]
      have hzero : (lineIssues rs file n line).count (mkIssue file n line r) = 0 := by
        rw [List.count_eq_zero]
        intro hmem
        exact hnd.1 (description_of_mem_lineIssues hmem)
      simp [List.count_append, List.count_cons, hzero]
    · have hne : r0.description ≠ r.description := by
        intro he
        exact hnd.1 (he ▸ List.mem_map.mpr ⟨r, hr2, rfl⟩)
      have htail := ih hnd.2 hr2
      rw [hsplit, List.count_append, htail]
      split
      · rw [List.count_singleton']
        rw [if_neg ?hdesc]
        case hdesc =>
          intro he
          have hd := congrArg Issue.description he
          simp only [mkIssue] at hd
          exact hne hd
      · simp

/-- Issues of the whole file are exactly the issues of its enumerated lines. -/
theorem mem_analyze_file_with {rules : List VRule} {file : String}
    {content : Str} {i : Issue} :
    i ∈ analyze_file_with rules file content ↔
      ∃ p ∈ List.enumFrom 1 (splitLines content),
        i ∈ lineIssues rules file p.1 p.2 := by
  exact mem_foldr_append _ _ _

theorem sum_single_line {rules : List VRule} {file : String} {tgt : Issue} :
    ∀ (L : List (Nat × Str)) (p : Nat × Str), p ∈ L →
      L.Pairwise (fun a b => a.1 ≠ b.1) → tgt.line = p.1 →
      (L.map (fun q => (lineIssues rules file q.1 q.2).count tgt)).sum =
        (lineIssues rules file p.1 p.2).count tgt := by
  intro L
  induction L with
  | nil => intro p hp; cases hp
  | cons x xs ih =>
    intro p hp hpw htl
    rcases List.mem_cons.mp hp with rfl | hp2
    · have hrest : ∀ q ∈ xs,
          (lineIssues rules file q.1 q.2).count tgt = 0 := by
        intro q hq
        rw [List.count_eq_zero]
        intro hmem
        have := line_of_mem_lineIssues hmem
        exact (List.rel_of_pairwise_cons hpw hq) (by rw [← htl, this])
      have : (xs.map (fun q => (lineIssues rules file q.1 q.2).count tgt)).sum = 0 := by
        apply List.sum_eq_zero
        intro a ha
        rcases List.mem_map.mp ha with ⟨q, hq, rfl⟩
        exact hrest q hq
      simp [this]
    · have hhead : (lineIssues rules file x.1 x.2).count tgt = 0 := by
        rw [List.count_eq_zero]
        intro hmem
        have := line_of_mem_lineIssues hmem
        exact (List.rel_of_pairwise_cons hpw hp2) (by rw [← this, htl])
      rw [List.map_cons, List.sum_cons, hhead,
        ih p hp2 (List.Pairwise.sublist (List.sublist_cons_self x xs) hpw) htl]
      simp

/-- C2: every emitted Finding comes from a (rule, line) pair whose line text
matches that rule's (case-insensitively embedded) detection pattern and
survives the false-positive filter; and every matching surviving pair yields
exactly one Finding. -/
theorem analyze_file_sound_and_unique (rules : List VRule) (file : String)
    (content : Str) (hnd : (rules.map VRule.description).Nodup) :
    (∀ i ∈ analyze_file_with rules file content,
      ∃ r ∈ rules, ∃ p ∈ List.enumFrom 1 (splitLines content),
        r.matchesLine p.2 = true ∧ is_false_positive p.2 r.name = false ∧
        i = mkIssue file p.1 p.2 r)
    ∧ (∀ r ∈ rules, ∀ p ∈ List.enumFrom 1 (splitLines content),
        r.matchesLine p.2 = true → is_false_positive p.2 r.name = false →
        (analyze_file_with rules file content).count (mkIssue file p.1 p.2 r) = 1) := by
  constructor
  · intro i hi
    rcases mem_analyze_file_with.mp hi with ⟨p, hp, hline⟩
    rcases mem_lineIssues.mp hline with ⟨r, hr, hm, hfp, rfl⟩
    exact ⟨r, hr, p, hp, hm, hfp, rfl⟩
  · intro r hr p hp hm hfp
    have := count_foldr_append (fun q => lineIssues rules file q.1 q.2)
      (List.enumFrom 1 (splitLines content)) (mkIssue file p.1 p.2 r)
    rw [analyze_file_with, this,
      sum_single_line (List.enumFrom 1 (splitLines content)) p hp
        (enumFrom_pairwise_fst_ne 1 (splitLines content)) rfl]
    exact count_lineIssues hnd hr hm hfp

/-- C2 witness: on a one-line file matching the expensive-lookup rule, the
scanner reports the pair exactly once. -/
theorem analyze_file_sound_and_unique_witness :
    (analyze_file_with validation_patterns "Test.cs"
      (str "FindObjectOfType<GameManager>()")).count
      (mkIssue "Test.cs" 1 (str "FindObjectOfType<GameManager>()")
        ⟨"findobjectoftype", reFindObjectOfType, "Critical", "Performance",
          "FindObjectOfType causes VR performance issues (50-150ms spikes)",
          "Replace with CachedReferenceManager.Get<T>()", true⟩) = 1 :=
  (analyze_file_sound_and_unique validation_patterns "Test.cs"
      (str "FindObjectOfType<GameManager>()") (by decide)).2
    _ (List.mem_cons_self _ _)
    (1, str "FindObjectOfType<GameManager>()") (by decide) (by decide) (by decide)

/-- C4: a line whose trimmed form starts with a comment marker is filtered
as a false positive for every rule, so a file consisting only of such
comment lines produces zero Findings, whatever the rule table. -/
theorem comment_lines_suppressed :
    (∀ (line : Str) (pattern_name : String),
      ((str "//").isPrefixOf (strip line) || (str "*").isPrefixOf (strip line)) = true →
      is_false_positive line pattern_name = true)
    ∧ (∀ (rules : List VRule) (file : String) (content : Str),
        (∀ l ∈ splitLines content,
          ((str "//").isPrefixOf (strip l) || (str "*").isPrefixOf (strip l)) = true) →
        analyze_file_with rules file content = []) := by
  constructor
  · intro line pattern_name h
    rw [is_false_positive, if_pos h]
  · intro rules file content hall
    rw [analyze_file_with, foldr_append_eq_nil]
    intro p hp
    have hfp : is_false_positive p.2 = fun _ => true := by
      funext pn
      rw [is_false_positive, if_pos (hall p.2 (mem_enumFrom_snd hp))]
    rw [lineIssues, List.filterMap_eq_nil_iff]
    intro r _
    rw [show is_false_positive p.2 r.name = true from congrFun hfp r.name]
    simp

/-- C4 witness: a file holding only a comment line that textually contains
a detection pattern yields no Findings. -/
theorem comment_lines_suppressed_witness :
    analyze_file_with validation_patterns "Test.cs"
      (str "// FindObjectOfType<GameManager>()") = [] :=
  comment_lines_suppressed.2 validation_patterns "Test.cs"
    (str "// FindObjectOfType<GameManager>()") (by decide)

/-- C1: the Report's deployment-ready verdict holds exactly when the count
of Critical-severity Findings in the Report is zero. -/
theorem deployment_ready_iff (all_issues : List Issue) (t : Nat) :
    (generate_report all_issues t).is_deployment_ready = true ↔
      countSeverity "Critical" (generate_report all_issues t).all_issues = 0 := by
  simp [generate_report]

/-! ### Lemmas about the Fixer -/

theorem fix_file_loop_spec (file : String) :
    ∀ (rules : List FixRule),
      (∀ r ∈ rules, ∀ s, r.countMatches s = 0 → r.apply s = s) →
      ∀ c, (fix_file_loop file rules c).1 = fix_spec_content rules c ∧
        (fix_file_loop file rules c).2.1 = fix_spec_records file rules c := by
  intro rules
  induction rules with
  | nil => intro _ c; exact ⟨rfl, rfl⟩
  | cons r rs ih =>
    intro hcoh c
    have hr : ∀ s, r.countMatches s = 0 → r.apply s = s :=
      hcoh r (List.mem_cons_self r rs)
    have hrs : ∀ r2 ∈ rs, ∀ s, r2.countMatches s = 0 → r2.apply s = s :=
      fun r2 h2 => hcoh r2 (List.mem_cons_of_mem r h2)
    by_cases hm : r.countMatches c = 0
    · have happ : r.apply c = c := hr c hm
      have h1 : fix_file_loop file (r :: rs) c = fix_file_loop file rs c := by
        simp [fix_file_loop, hm]
      have h2 : fix_spec_content (r :: rs) c = fix_spec_content rs c := by
        rw [fix_spec_content, happ]
      have h3 : fix_spec_records file (r :: rs) c = fix_spec_records file rs c := by
        rw [fix_spec_records, if_neg (by simp [happ]), happ]
      rw [h1, h2, h3]
      exact ih hrs c
    · by_cases hne : r.apply c ≠ c
      · have h1 : fix_file_loop file (r :: rs) c =
            ((fix_file_loop file rs (r.apply c)).1,
             ⟨file, r.name, r.countMatches c⟩ :: (fix_file_loop file rs (r.apply c)).2.1,
             r.countMatches c + (fix_file_loop file rs (r.apply c)).2.2) := by
          simp [fix_file_loop, hm, hne]
        rw [h1, fix_spec_content, fix_spec_records, if_pos hne]
        exact ⟨(ih hrs (r.apply c)).1, by rw [(ih hrs (r.apply c)).2]⟩
      · push_neg at hne
        have h1 : fix_file_loop file (r :: rs) c = fix_file_loop file rs c := by
          simp [fix_file_loop, hm, hne]
        rw [h1, fix_spec_content, fix_spec_records, if_neg (by simp [hne]), hne]
        exact ih hrs c

/-- C3: for one (non-protected) file, the Fixer applies the fix rules in
declared order to the progressively-updated in-memory content, writes the
file back at most once — exactly when the final content differs from the
original — and appends one FixRecord per rule whose substitution changed
the content, counting the matches present when that rule ran.  The
hypothesis is the `re` library's coherence: a pattern with zero `findall`
matches leaves `re.sub` output unchanged. -/
theorem fix_file_contract (file : String) (rules : List FixRule) (orig : Str)
    (hcoh : ∀ r ∈ rules, ∀ s, r.countMatches s = 0 → r.apply s = s) :
    (fix_file file rules orig).writes.length ≤ 1
    ∧ ((fix_file file rules orig).writes = [] ↔
        (fix_file file rules orig).content = orig)
    ∧ (fix_file file rules orig).content = fix_spec_content rules orig
    ∧ (fix_file file rules orig).records = fix_spec_records file rules orig := by
  have hspec := fix_file_loop_spec file rules hcoh orig
  refine ⟨?_, ?_, ?_, ?_⟩
  · rw [fix_file]
    split
    · simp
    · simp
  · rw [fix_file]
    split
    · rename_i h
      simp only [List.cons_ne_self]
      constructor
      · intro hc; cases hc
      · intro hc; exact absurd hc h
    · rename_i h
      push_neg at h
      simpa using h
  · exact hspec.1
  · exact hspec.2

/-- C3 witness: the contract evaluated on the expensive-lookup file with the
source's fix table; the coherence hypothesis holds for every `reSub`-built rule. -/
theorem fix_file_contract_witness :
    (fix_file "Test.cs" fix_patterns (str "FindObjectOfType<GameManager>()")).writes.length ≤ 1
    ∧ ((fix_file "Test.cs" fix_patterns (str "FindObjectOfType<GameManager>()")).writes = [] ↔
        (fix_file "Test.cs" fix_patterns (str "FindObjectOfType<GameManager>()")).content =
          str "FindObjectOfType<GameManager>()")
    ∧ (fix_file "Test.cs" fix_patterns (str "FindObjectOfType<GameManager>()")).content =
        fix_spec_content fix_patterns (str "FindObjectOfType<GameManager>()")
    ∧ (fix_file "Test.cs" fix_patterns (str "FindObjectOfType<GameManager>()")).records =
        fix_spec_records "Test.cs" fix_patterns (str "FindObjectOfType<GameManager>()") :=
  fix_file_contract "Test.cs" fix_patterns (str "FindObjectOfType<GameManager>()")
    (by
      intro r hr s h
      simp only [fix_patterns, List.mem_cons, List.not_mem_nil, or_false] at hr
      rcases hr with rfl | rfl | rfl | rfl | rfl <;>
        (simp only [mkFixRule] at h ⊢; exact reSub_count_zero _ _ h))

/-! ### Lemmas about protected files -/

theorem fix_file_loop_records_file (file : String) :
    ∀ (rules : List FixRule) (c : Str) (rec : FixRecord),
      rec ∈ (fix_file_loop file rules c).2.1 → rec.file = file := by
  intro rules
  induction rules with
  | nil => intro c rec h; cases h
  | cons r rs ih =>
    intro c rec h
    simp only [fix_file_loop] at h
    split at h
    · split at h
      · rcases List.mem_cons.mp h with rfl | h2
        · rfl
        · exact ih _ rec h2
      · exact ih _ rec h
    · exact ih _ rec h

theorem fix_file_records_file (file : String) (rules : List FixRule) (orig : Str)
    (rec : FixRecord) (h : rec ∈ (fix_file file rules orig).records) :
    rec.file = file :=
  fix_file_loop_records_file file rules orig rec h

/-- C5: a file whose name is in the protected set is never written by the
Fixer and produces no FixRecord, whatever the rules and the other files. -/
theorem protected_files_untouched (rules : List FixRule) (files : List SrcFile)
    (name : String) (h : name ∈ skip_files) :
    (auto_fix_all rules files).1.filter (fun rec => rec.file == name) = []
    ∧ (auto_fix_all rules files).2.filter (fun w => w.1 == name) = [] := by
  induction files with
  | nil => exact ⟨rfl, rfl⟩
  | cons f fs ih =>
    rw [auto_fix_all]
    by_cases hskip : f.name ∈ skip_files
    · rw [if_pos hskip]
      exact ih
    · rw [if_neg hskip]
      have hne : f.name ≠ name := fun he => hskip (he ▸ h)
      constructor
      · rw [List.filter_append, ih.1, List.append_nil]
        rw [List.filter_eq_nil_iff]
        intro rec hrec
        rw [fix_file_records_file f.name rules f.content rec hrec]
        simp [hne]
      · rw [List.filter_append, ih.2, List.append_nil]
        rw [List.filter_eq_nil_iff]
        intro w hw
        rcases List.mem_map.mp hw with ⟨c, _, rfl⟩
        simp [hne]

/-- C5 witness: the protected core-system file is left alone even though a
fix pattern matches its content. -/
theorem protected_files_untouched_witness :
    (auto_fix_all fix_patterns
      [⟨"CachedReferenceManager.cs", str "FindObjectOfType<GameManager>()"⟩]).1.filter
      (fun rec => rec.file == "CachedReferenceManager.cs") = []
    ∧ (auto_fix_all fix_patterns
      [⟨"CachedReferenceManager.cs", str "FindObjectOfType<GameManager>()"⟩]).2.filter
      (fun w => w.1 == "CachedReferenceManager.cs") = [] :=
  protected_files_untouched fix_patterns
    [⟨"CachedReferenceManager.cs", str "FindObjectOfType<GameManager>()"⟩]
    "CachedReferenceManager.cs" (by decide)

/-! ### Lemmas about the UsingInjector -/

/-- After one injector pass every required declaration occurs in the file. -/
theorem all_stmts_in_inject (c : Str) (stmts : List Str)
    (hnl : ∀ s ∈ stmts, '\n' ∉ s) :
    ∀ s ∈ stmts, containsSub s (inject_usings c stmts) = true := by
  intro s hs
  rw [inject_usings]
  by_cases hmiss : (stmts.filter (fun s2 => !(containsSub s2 c))).isEmpty
  · rw [if_pos hmiss]
    by_cases hc : containsSub s c = true
    · exact hc
    · exfalso
      have : s ∈ stmts.filter (fun s2 => !(containsSub s2 c)) :=
        List.mem_filter.mpr ⟨hs, by simp [hc]⟩
      rw [List.isEmpty_iff] at hmiss
      rw [hmiss] at this
      cases this
  · rw [if_neg hmiss]
    rw [containsSub_iff]
    by_cases hc : containsSub s c = true
    · have hinf : s <:+: c := (containsSub_iff s c).mp hc
      rw [← joinLines_splitLines c] at hinf
      rcases infix_line_of_infix_joinLines (splitLines_ne_nil c) (hnl s hs) hinf
        with ⟨l, hl, hsl⟩
      have hl2 : l ∈ (splitLines c).take (insertIndex (splitLines c)) ++
          stmts.filter (fun s2 => !(containsSub s2 c)) ++
          (splitLines c).drop (insertIndex (splitLines c)) := by
        rw [← List.take_append_drop (insertIndex (splitLines c)) (splitLines c)]
          at hl
        rcases List.mem_append.mp hl with h1 | h2
        · exact List.mem_append.mpr (Or.inl (List.mem_append.mpr (Or.inl h1)))
        · exact List.mem_append.mpr (Or.inr h2)
      exact List.IsInfix.trans hsl (infix_joinLines_of_mem hl2)
    · have hm : s ∈ stmts.filter (fun s2 => !(containsSub s2 c)) :=
        List.mem_filter.mpr ⟨hs, by simp [hc]⟩
      refine infix_joinLines_of_mem ?_
      exact List.mem_append.mpr (Or.inl (List.mem_append.mpr (Or.inr hm)))

/-- C6: the UsingInjector is idempotent.  A declaration already occurring in
the file is never in the missing set (it inserts nothing for it), one pass
establishes every declaration, and any number of further passes leaves the
content unchanged — so no declaration is ever duplicated.  Required
declarations are single lines (`hnl`), as both `add_using` strings are. -/
theorem inject_usings_idempotent (c : Str) (stmts : List Str)
    (hnl : ∀ s ∈ stmts, '\n' ∉ s) :
    (∀ s ∈ stmts, containsSub s c = true →
      s ∉ stmts.filter (fun s2 => !(containsSub s2 c)))
    ∧ inject_usings (inject_usings c stmts) stmts = inject_usings c stmts
    ∧ ∀ n : Nat, (fun t => inject_usings t stmts)^[n + 1] c =
        inject_usings c stmts := by
  have hfix : inject_usings (inject_usings c stmts) stmts = inject_usings c stmts := by
    have hall := all_stmts_in_inject c stmts hnl
    rw [inject_usings]
    rw [if_pos ?hempty]
    case hempty =>
      rw [List.isEmpty_iff, List.filter_eq_nil_iff]
      intro s hs
      simp [hall s hs]
  refine ⟨?_, hfix, ?_⟩
  · intro s _ hc hmem
    have := (List.mem_filter.mp hmem).2
    rw [hc] at this
    cases this
  · intro n
    induction n with
    | zero => simp
    | succ k ihk =>
      rw [Function.iterate_succ_apply', ihk, hfix]

/-- C6 witness: injecting the source's two `add_using` declarations twice
equals injecting them once. -/
theorem inject_usings_idempotent_witness :
    inject_usings
      (inject_usings (str "using UnityEngine;\npublic class A { }")
        [str "using VRBoxingGame.Core;", str "using System.Threading.Tasks;"])
      [str "using VRBoxingGame.Core;", str "using System.Threading.Tasks;"] =
    inject_usings (str "using UnityEngine;\npublic class A { }")
      [str "using VRBoxingGame.Core;", str "using System.Threading.Tasks;"] :=
  (inject_usings_idempotent (str "using UnityEngine;\npublic class A { }")
    [str "using VRBoxingGame.Core;", str "using System.Threading.Tasks;"]
    (by decide)).2.1

/-! ### The runner: error isolation and determinism -/

theorem catLists_append {α : Type} (L1 L2 : List (List α)) :
    catLists (L1 ++ L2) = catLists L1 ++ catLists L2 := by
  induction L1 with
  | nil => rfl
  | cons x xs ih => simp [catLists, List.foldr_cons, List.append_assoc] at ih ⊢; rw [ih]

/-- C7: a file whose read fails is caught and isolated — the resulting
Report is the one the scan of the remaining files produces (all other
files' Findings appear; the scan does not abort), and the failure is
recorded in the error log, separate from the Findings. -/
theorem scan_error_isolated (pre post : List ScanFile) (name msg : String)
    (extra : List Issue) (t : Nat) :
    (run_comprehensive_validation (pre ++ ⟨name, .err msg⟩ :: post) extra t).1 =
      (run_comprehensive_validation (pre ++ post) extra t).1
    ∧ analysisError name msg ∈
      (run_comprehensive_validation (pre ++ ⟨name, .err msg⟩ :: post) extra t).2 := by
  constructor
  · simp only [run_comprehensive_validation, List.map_append, List.map_cons,
      catLists_append]
    have : (analyze_one ⟨name, .err msg⟩).1 = [] := rfl
    simp [catLists, this]
  · simp only [run_comprehensive_validation, List.map_append, List.map_cons,
      catLists_append]
    have : (analyze_one ⟨name, .err msg⟩).2 = [analysisError name msg] := rfl
    simp [catLists, this]

theorem lookup_completions (files : List ScanFile) :
    ∀ (sched : List Nat) (i : Nat), i ∈ sched → ∀ f, files[i]? = some f →
      List.lookup i (sched.filterMap
        (fun j => (files[j]?).map (fun fj => (j, analyze_one fj)))) =
        some (analyze_one f) := by
  intro sched
  induction sched with
  | nil => intro i hi; cases hi
  | cons j rest ih =>
    intro i hi f hf
    rcases List.mem_cons.mp hi with rfl | hi2
    · rw [List.filterMap_cons, hf]
      simp [List.lookup]
    · by_cases hij : i = j
      · subst hij
        rw [List.filterMap_cons, hf]
        simp [List.lookup]
      · rw [List.filterMap_cons]
        cases hj : files[j]? with
        | none => exact ih i hi2 f hf
        | some fj =>
          have hbeq : (i == j) = false := by simp [hij]
          simp only [Option.map_some', List.lookup, hbeq]
          exact ih i hi2 f hf

/-- C8: for a fixed file set and rule table, the Report is independent of
the executor schedule — any two completion orders (permutations of the task
indices) yield identical Reports: same Findings in the same order and the
same aggregate counts. -/
theorem scan_deterministic (files : List ScanFile) (extra : List Issue) (t : Nat)
    (s1 s2 : List Nat) (h1 : s1.Perm (List.range files.length))
    (h2 : s2.Perm (List.range files.length)) :
    run_validation_sched files extra t s1 = run_validation_sched files extra t s2 := by
  have key : ∀ (s : List Nat), s.Perm (List.range files.length) →
      (List.range files.length).map (fun i =>
        ((List.lookup i (s.filterMap
          (fun j => (files[j]?).map (fun fj => (j, analyze_one fj))))).getD ([], [])).1) =
      (List.range files.length).map (fun i =>
        (((files[i]?).map analyze_one).getD ([], [])).1) := by
    intro s hs
    apply List.map_congr_left
    intro i hi
    have hilt : i < files.length := List.mem_range.mp hi
    have hfi : files[i]? = some files[i] := List.getElem?_eq_getElem hilt
    rw [lookup_completions files s i (hs.mem_iff.mpr hi) _ hfi, hfi]
    rfl
  rw [run_validation_sched, run_validation_sched, key s1 h1, ← key s2 h2]

/-- C8 witness: two opposite schedules over a two-file set (one of which
fails to read) produce the same Report. -/
theorem scan_deterministic_witness :
    run_validation_sched
      [⟨"A.cs", .ok (str "Instantiate(x);")⟩, ⟨"B.cs", .err "decode error"⟩]
      [] 0 [1, 0] =
    run_validation_sched
      [⟨"A.cs", .ok (str "Instantiate(x);")⟩, ⟨"B.cs", .err "decode error"⟩]
      [] 0 [0, 1] :=
  scan_deterministic
    [⟨"A.cs", .ok (str "Instantiate(x);")⟩, ⟨"B.cs", .err "decode error"⟩]
    [] 0 [1, 0] [0, 1] (by decide) (by decide)

/-- C9: a file whose only line is a direct expensive-lookup call yields
exactly one Critical, Performance, fixable Finding; one Fixer pass rewrites
the line to the cached-lookup form with a single FixRecord of count 1; a
second Fixer pass on the rewritten file produces no FixRecord. -/
theorem expensive_lookup_scenario :
    ((analyze_file "Test.cs" (str "FindObjectOfType<GameManager>()")).filter
      (fun i => i.severity == "Critical" && i.category == "Performance" &&
        i.can_auto_fix)).length = 1
    ∧ (fix_file "Test.cs" fix_patterns (str "FindObjectOfType<GameManager>()")).content
        = str "CachedReferenceManager.Get<GameManager>()"
    ∧ (fix_file "Test.cs" fix_patterns (str "FindObjectOfType<GameManager>()")).records
        = [⟨"Test.cs", "findobjectoftype", 1⟩]
    ∧ (fix_file "Test.cs" fix_patterns
        (fix_file "Test.cs" fix_patterns
          (str "FindObjectOfType<GameManager>()")).content).records = [] := by
  refine ⟨?_, ?_, ?_, ?_⟩ <;> decide

/-- C10: the Scanner matches case-insensitively but the Fixer's patterns are
case-sensitive, so the lower-cased expensive-lookup call is reported as a
fixable Finding while a Fixer pass leaves the content unchanged, performs no
write and produces no FixRecord. -/
theorem scanner_fixer_case_mismatch :
    ((analyze_file "Test.cs" (str "findobjectoftype<GameManager>()")).filter
      (fun i => i.can_auto_fix)).length = 1
    ∧ (fix_file "Test.cs" fix_patterns (str "findobjectoftype<GameManager>()")).content
        = str "findobjectoftype<GameManager>()"
    ∧ (fix_file "Test.cs" fix_patterns (str "findobjectoftype<GameManager>()")).records = []
    ∧ (fix_file "Test.cs" fix_patterns (str "findobjectoftype<GameManager>()")).writes = [] := by
  refine ⟨?_, ?_, ?_, ?_⟩ <;> decide
